import Mathlib

/-
  Verification of the k256 ECDSA protocol layer (recoverable signatures,
  signer, verifier) against its design specification.

  The scalar field and the curve group are the external arithmetic provider
  of the design: the secp256k1 group is cyclic of prime order n, so it is
  represented by its discrete logarithms, i.e. points are elements of
  `ZMod n` with the generator at 1, scalar multiplication is ring
  multiplication and the point at infinity is 0.  The base-field
  x-coordinate, the y-parity test and x-only decompression are opaque
  provider operations, carried as fields of `Curve` together with the
  contracts the design assigns to them.  Byte strings (32-byte big-endian
  scalar encodings, recovery-id bytes) are modelled by their numeric value
  as a natural number.

  Rust `Result` is `Except`, `CtOption` is `Option`, and `.unwrap()` /
  `.expect()` / `unreachable!` on a missing value is the `panicked`
  outcome of `PanicOr`, so that "returns an error" and "aborts" stay
  distinguishable.
-/

namespace K256

/-- The external scalar/point arithmetic provider of the design: a curve
group of prime order `n` (represented cyclically by `ZMod n`), the
base-field x-coordinate serialization, the y-parity test, x-only point
decompression, and the opaque deterministic nonce derivation.  The three
contract fields are the properties of secp256k1 the protocol layer relies
on: decompressing a (nonzero) point's own x-coordinate with its own
parity bit recovers that point, negation keeps the x-coordinate, and
negation flips the y-parity (secp256k1 has odd group order, hence no
2-torsion and no point with y = 0). -/
structure Curve where
  n : ℕ
  n_prime : n.Prime
  n_ne_two : n ≠ 2
  xCoord : ZMod n → ℕ
  yIsOdd : ZMod n → Bool
  decompress : ℕ → Bool → Option (ZMod n)
  nonce : ZMod n → ZMod n → ZMod n
  decompress_complete : ∀ P : ZMod n, P ≠ 0 →
    decompress (xCoord P) (yIsOdd P) = some P
  xCoord_neg : ∀ P : ZMod n, xCoord (-P) = xCoord P
  yIsOdd_neg : ∀ P : ZMod n, P ≠ 0 → yIsOdd (-P) = !yIsOdd P

/-- The fixed generator point, at discrete logarithm 1. -/
def pointG (C : Curve) : ZMod C.n := 1

/-- Projective-to-affine conversion: fails (CtOption none) exactly on the
point at infinity. -/
def to_affine (C : Curve) (P : ZMod C.n) : Option (ZMod C.n) :=
  if P = 0 then none else some P

/-- The multiplicative inverse in the scalar field, computed as the
Fermat power `x ^ (n - 2)` so that it evaluates by kernel reduction; for
nonzero `x` over a prime order this is exactly `x⁻¹` (theorem
`finv_eq`). -/
def finv (C : Curve) (x : ZMod C.n) : ZMod C.n := x ^ (C.n - 2)

/-- Scalar inversion, `Invert::invert`: fails (CtOption none) exactly on
zero. -/
def scalar_invert (C : Curve) (x : ZMod C.n) : Option (ZMod C.n) :=
  if x = 0 then none else some (finv C x)

/-- `Scalar::from_bytes_reduced`: reduce a serialized big integer into the
scalar field. -/
def from_bytes_reduced (C : Curve) (m : ℕ) : ZMod C.n := (m : ZMod C.n)

/-- `NonZeroScalar::from_bytes`: succeeds exactly on canonical (below `n`)
nonzero encodings. -/
def nonzero_scalar_from_bytes (C : Curve) (m : ℕ) : Option (ZMod C.n) :=
  if m ≠ 0 ∧ m < C.n then some (m : ZMod C.n) else none

/-- `Scalar::is_high`: is the scalar greater than `n / 2`? -/
def is_high (C : Curve) (x : ZMod C.n) : Bool := decide (C.n / 2 < x.val)

/-- `ecdsa_core::Error`: an opaque error with a single nullary
constructor, `Error::new()`.  It carries no information about which
failure produced it. -/
inductive Error where
  | new : Error
deriving DecidableEq

/-- Outcome of a computation that may abort (Rust panic via `.unwrap()`,
`.expect()` or `unreachable!`) instead of returning. -/
inductive PanicOr (α : Type) where
  | panicked : PanicOr α
  | value : α → PanicOr α
deriving DecidableEq

instance {ε α : Type} [DecidableEq ε] [DecidableEq α] :
    DecidableEq (Except ε α) := fun x y =>
  match x, y with
  | .error a, .error b =>
    if h : a = b then isTrue (by rw [h])
    else isFalse (fun hh => h (Except.error.inj hh))
  | .ok a, .ok b =>
    if h : a = b then isTrue (by rw [h])
    else isFalse (fun hh => h (Except.ok.inj hh))
  | .error _, .ok _ => isFalse (fun hh => Except.noConfusion hh)
  | .ok _, .error _ => isFalse (fun hh => Except.noConfusion hh)

/-- The plain 64-byte ECDSA signature: the `r` and `s` halves, each the
numeric value of a 32-byte big-endian encoding. -/
structure Signature where
  r : ℕ
  s : ℕ
deriving DecidableEq

/-- `recoverable::Id`: the raw recovery-id byte.  The constructor itself is
unchecked (the Rust field is `pub(super)`); validation lives in
`recovery_id_new` (`Id::new`). -/
structure RecoveryId where
  val : ℕ
deriving DecidableEq

/-- `recoverable::Signature`: the 65-byte buffer, as the values of
bytes 0..32 (`r`), 32..64 (`s`) and byte 64 (`v`). -/
structure RecoverableSignature where
  r : ℕ
  s : ℕ
  v : ℕ
deriving DecidableEq

/-- Value of a big-endian byte string. -/
def beToNat (bs : List ℕ) : ℕ := bs.foldl (fun a b => a * 256 + b) 0

/-- `Id::new` (recoverable.rs): succeeds exactly on bytes 0 and 1, anything
else is an error. -/
def recovery_id_new (b : ℕ) : Except Error RecoveryId :=
  if b = 0 ∨ b = 1 then .ok ⟨b⟩ else .error .new

/-- `Id::is_y_odd` (recoverable.rs): the id byte as a parity choice. -/
def rid_is_y_odd (i : RecoveryId) : Bool := decide (i.val = 1)

/-- Modelled from the spec: `check_scalars` lives in the k256 `ecdsa`
module root, which is not among the given sources; per the data-model
section both signature halves must be canonical nonzero scalars. -/
def check_scalars (C : Curve) (sig : Signature) : Except Error Unit :=
  if sig.r ≠ 0 ∧ sig.r < C.n ∧ sig.s ≠ 0 ∧ sig.s < C.n then .ok ()
  else .error .new

/-- Modelled from the spec: `normalize_s` lives in the k256 `ecdsa` module
root, which is not among the given sources.  Per the spec it parses `s`, and
if `s` is high (greater than `n / 2`) replaces it by `n - s` and reports
`true`, otherwise leaves the signature unchanged and reports `false`; the
boundary parse fails on a non-canonical `s` encoding. -/
def normalize_s (C : Curve) (sig : Signature) : Except Error (Signature × Bool) :=
  if sig.s < C.n then
    if is_high C (sig.s : ZMod C.n) then
      .ok (⟨sig.r, (-(sig.s : ZMod C.n)).val⟩, true)
    else
      .ok (sig, false)
  else .error .new

/-- Modelled from the spec: the 64-byte `Signature` parse
(`TryFrom` for the plain signature) lives outside the given sources; per
the spec it fails unless exactly 64 bytes are given and both halves parse
as nonzero scalars below the curve order. -/
def signature_try_from (C : Curve) (bytes : List ℕ) : Except Error Signature :=
  if bytes.length = 64 then
    let r := beToNat (bytes.take 32)
    let s := beToNat ((bytes.drop 32).take 32)
    if r ≠ 0 ∧ r < C.n ∧ s ≠ 0 ∧ s < C.n then .ok ⟨r, s⟩ else .error .new
  else .error .new

/-- `Signature::from_scalars`: serialize an (r, s) pair of scalars. -/
def from_scalars (C : Curve) (r s : ZMod C.n) : Signature := ⟨r.val, s.val⟩

/-- `recoverable::Signature::new` (recoverable.rs lines 79-87): check the
scalar invariants of the plain signature, then pack 64 bytes plus the raw
id byte. -/
def recoverable_new (C : Curve) (sig : Signature) (i : RecoveryId) :
    Except Error RecoverableSignature :=
  match check_scalars C sig with
  | .error e => .error e
  | .ok _ => .ok ⟨sig.r, sig.s, i.val⟩

/-- `recoverable::Signature::recovery_id` (recoverable.rs lines 90-92):
re-validate byte 64 through `Id::new`, aborting (`.expect`) on an invalid
byte. -/
def recovery_id_accessor (sig : RecoverableSignature) : PanicOr RecoveryId :=
  match recovery_id_new sig.v with
  | .ok i => .value i
  | .error _ => .panicked

/-- `recoverable::Signature::r` (recoverable.rs lines 161-169): parse the
first 32 bytes as a nonzero scalar, aborting (`unreachable!`) if that
fails. -/
def r_accessor (C : Curve) (sig : RecoverableSignature) : PanicOr (ZMod C.n) :=
  match nonzero_scalar_from_bytes C sig.r with
  | some x => .value x
  | none => .panicked

/-- `recoverable::Signature::s` (recoverable.rs lines 174-182): parse the
second 32 bytes as a nonzero scalar, aborting (`unreachable!`) if that
fails. -/
def s_accessor (C : Curve) (sig : RecoverableSignature) : PanicOr (ZMod C.n) :=
  match nonzero_scalar_from_bytes C sig.s with
  | some x => .value x
  | none => .panicked

/-- `TryFrom` of a byte slice for `recoverable::Signature`
(recoverable.rs lines 213-225): require exactly 65 bytes, parse the
64-byte prefix as a plain signature, validate byte 64 through `Id::new`,
then build through `recoverable::Signature::new`. -/
def rec_sig_try_from (C : Curve) (bytes : List ℕ) :
    Except Error RecoverableSignature :=
  if bytes.length = 65 then
    match signature_try_from C (bytes.take 64) with
    | .error e => .error e
    | .ok sig =>
      match recovery_id_new (bytes.getD 64 0) with
      | .error e => .error e
      | .ok i => recoverable_new C sig i
  else .error .new

/-- `From` of `recoverable::Signature` for the plain signature
(recoverable.rs lines 227-231): re-parse the 64-byte prefix, aborting
(`.unwrap()`) if it is not a valid plain signature. -/
def rec_sig_to_plain (C : Curve) (sig : RecoverableSignature) :
    PanicOr Signature :=
  if sig.r ≠ 0 ∧ sig.r < C.n ∧ sig.s ≠ 0 ∧ sig.s < C.n then
    .value ⟨sig.r, sig.s⟩
  else .panicked

/-- `try_sign_recoverable_prehashed` (signer.rs lines 113-149): invert the
ephemeral scalar and reject a zero ephemeral scalar; convert R = k·G to
affine (an `.unwrap()`, hence a potential abort); reduce R's x-coordinate
into the scalar field to get `r`; compute `s = k⁻¹(z + r·d)` and reject a
zero `s`; record the parity of R's y and whether low-S normalization
changed `s`; package the result with recovery id byte
`is_r_odd XOR is_s_high`. -/
def try_sign_recoverable_prehashed (C : Curve) (d k z : ZMod C.n) :
    PanicOr (Except Error RecoverableSignature) :=
  match scalar_invert C k with
  | none => .value (.error .new)
  | some k_inverse =>
    if k = 0 then .value (.error .new)
    else
      match to_affine C (k * pointG C) with
      | none => .panicked
      | some R =>
        let r := from_bytes_reduced C (C.xCoord R)
        let s := k_inverse * (z + r * d)
        if s = 0 then .value (.error .new)
        else
          let signature := from_scalars C r s
          let is_r_odd := C.yIsOdd R
          match normalize_s C signature with
          | .error e => .value (.error e)
          | .ok (sig2, is_s_high) =>
            let rid : RecoveryId := ⟨cond (Bool.xor is_r_odd is_s_high) 1 0⟩
            .value (recoverable_new C sig2 rid)

/-- `sign_recoverable`: signing through `DigestSigner` (signer.rs lines
63-73) derives the deterministic nonce from the secret scalar and the
digest and calls `try_sign_recoverable_prehashed` with it. -/
def sign_recoverable (C : Curve) (d z : ZMod C.n) :
    PanicOr (Except Error RecoverableSignature) :=
  try_sign_recoverable_prehashed C d (C.nonce d z) z

/-- Modelled from the spec: the plain `sign` path goes through the
signature crate's blanket impl (outside this repository); per the spec it
runs the recoverable signing algorithm and drops the recovery id, the
drop being the repository's `From` conversion on the 64-byte prefix. -/
def sign_prehashed (C : Curve) (d z : ZMod C.n) :
    PanicOr (Except Error Signature) :=
  match sign_recoverable C d z with
  | .panicked => .panicked
  | .value (.error e) => .value (.error e)
  | .value (.ok rsig) =>
    match rec_sig_to_plain C rsig with
    | .panicked => .panicked
    | .value sig => .value (.ok sig)

/-- `verify_prehashed` (verifier.rs lines 54-86): re-parse `r` and `s` as
nonzero scalars; reject a high `s`; invert `s` (`.unwrap()`, safe since
`s` is nonzero); compute the candidate point `u1·G + u2·P` and convert it
to affine (an `.unwrap()`, hence a potential abort on the point at
infinity); accept exactly when its reduced x-coordinate equals `r`. -/
def verify_prehashed (C : Curve) (pk : ZMod C.n) (z : ZMod C.n)
    (sig : Signature) : PanicOr (Except Error Unit) :=
  match nonzero_scalar_from_bytes C sig.r, nonzero_scalar_from_bytes C sig.s with
  | some r, some s =>
    if is_high C s then .value (.error .new)
    else
      match scalar_invert C s with
      | none => .panicked
      | some s_inv =>
        let u1 := z * s_inv
        let u2 := r * s_inv
        match to_affine C (u1 * pointG C + u2 * pk) with
        | none => .panicked
        | some x =>
          if from_bytes_reduced C (C.xCoord x) = r then .value (.ok ())
          else .value (.error .new)
  | _, _ => .value (.error .new)

/-- `recover_verify_key_from_digest` (recoverable.rs lines 133-156): read
`r`, `s` and the recovery id back out of the buffer (each read can abort),
decompress `r`'s encoding with the id's parity bit to reconstruct the
ephemeral point, invert `r` (`.unwrap()`, safe since `r` is nonzero),
compute `u1 = -(r⁻¹·z)`, `u2 = r⁻¹·s` and the candidate public point
`u1·G + u2·R`; fail if decompression fails or the candidate is the point
at infinity. -/
def recover_verify_key_from_digest (C : Curve) (sig : RecoverableSignature)
    (z : ZMod C.n) : PanicOr (Except Error (ZMod C.n)) :=
  match r_accessor C sig with
  | .panicked => .panicked
  | .value r =>
    match s_accessor C sig with
    | .panicked => .panicked
    | .value s =>
      match recovery_id_accessor sig with
      | .panicked => .panicked
      | .value rid =>
        match C.decompress r.val (rid_is_y_odd rid) with
        | none => .value (.error .new)
        | some R =>
          match scalar_invert C r with
          | none => .panicked
          | some r_inv =>
            let u1 := -(r_inv * z)
            let u2 := r_inv * s
            match to_affine C (u1 * pointG C + u2 * R) with
            | none => .value (.error .new)
            | some pk => .value (.ok pk)

/-- One iteration of the trial-recovery loop (recoverable.rs lines
107-115): build a recoverable signature with the candidate id, attempt
recovery, and compare the recovered key's encoding with the expected one;
`none` means this id produced no match. -/
def trial_step (C : Curve) (pk z : ZMod C.n) (sig : Signature) (i : ℕ) :
    PanicOr (Option RecoverableSignature) :=
  match recoverable_new C sig ⟨i⟩ with
  | .error _ => .value none
  | .ok rsig =>
    match recover_verify_key_from_digest C rsig z with
    | .panicked => .panicked
    | .value (.error _) => .value none
    | .value (.ok pk2) => .value (if pk = pk2 then some rsig else none)

/-- `from_trial_recovery` (recoverable.rs lines 99-118): normalize `s`
first, then try recovery id 0 and only afterwards id 1, returning the
first recoverable signature whose recovered key matches; an error when
neither id matches. -/
def from_trial_recovery (C : Curve) (pk z : ZMod C.n) (sig : Signature) :
    PanicOr (Except Error RecoverableSignature) :=
  match normalize_s C sig with
  | .error e => .value (.error e)
  | .ok (sig2, _) =>
    match trial_step C pk z sig2 0 with
    | .panicked => .panicked
    | .value (some rsig) => .value (.ok rsig)
    | .value none =>
      match trial_step C pk z sig2 1 with
      | .panicked => .panicked
      | .value (some rsig) => .value (.ok rsig)
      | .value none => .value (.error .new)

/-- The reduced x-coordinate scalar `r` of the ephemeral point R = k·G
(signer.rs line 135). -/
def r_candidate (C : Curve) (k : ZMod C.n) : ZMod C.n :=
  from_bytes_reduced C (C.xCoord (k * pointG C))

/-- The signature scalar `s = k⁻¹ (z + r·d)` before normalization
(signer.rs line 138). -/
def s_candidate (C : Curve) (d k z : ZMod C.n) : ZMod C.n :=
  finv C k * (z + r_candidate C k * d)

/-- The low-S normalized signature scalar (spec 4.1: replace a high `s`
by `n - s`). -/
def s_low (C : Curve) (d k z : ZMod C.n) : ZMod C.n :=
  if is_high C (s_candidate C d k z) then -(s_candidate C d k z)
  else s_candidate C d k z

/-- The recovery-id bit recorded by the signer (signer.rs line 147):
parity of R's y-coordinate XOR whether `s` was high. -/
def rid_bit (C : Curve) (d k z : ZMod C.n) : Bool :=
  Bool.xor (C.yIsOdd (k * pointG C)) (is_high C (s_candidate C d k z))

/-- A small concrete arithmetic provider used to evaluate the protocol
layer on explicit inputs: the cyclic group of order 5, with an
x-coordinate table in which the pair {1, 4} has x-coordinate 7 — a value
at least the group order, which is exactly the r-overflow configuration
that exists on secp256k1 (whose base field is larger than its group
order).  All the provider contracts hold. -/
def Wcurve : Curve where
  n := 5
  n_prime := by norm_num
  n_ne_two := by norm_num
  xCoord := fun P => if P = 1 ∨ P = 4 then 7 else if P = 2 ∨ P = 3 then 3 else 0
  yIsOdd := fun P => decide (P = 3 ∨ P = 4)
  decompress := fun m b =>
    if m = 7 then some (if b then 4 else 1)
    else if m = 3 then some (if b then 3 else 2)
    else none
  nonce := fun d z => d + z
  decompress_complete := by decide
  xCoord_neg := by decide
  yIsOdd_neg := by decide

/- Helper lemmas shared by the claim theorems. -/

theorem finv_eq (C : Curve) (x : ZMod C.n) (hx : x ≠ 0) : finv C x = x⁻¹ := by
  haveI : Fact C.n.Prime := ⟨C.n_prime⟩
  have h2 : x ^ (C.n - 2) * x = 1 := by
    have hn : C.n - 2 + 1 = C.n - 1 := by
      have := C.n_prime.two_le
      omega
    rw [← pow_succ, hn, ZMod.pow_card_sub_one_eq_one hx]
  rw [finv]
  exact eq_inv_of_mul_eq_one_left h2

theorem natCast_val_self (C : Curve) (a : ZMod C.n) :
    ((a.val : ℕ) : ZMod C.n) = a := by
  haveI : NeZero C.n := ⟨C.n_prime.pos.ne'⟩
  exact ZMod.natCast_rightInverse a

theorem nzsf_of_ne (C : Curve) (a : ZMod C.n) (ha : a ≠ 0) :
    nonzero_scalar_from_bytes C a.val = some a := by
  haveI : NeZero C.n := ⟨C.n_prime.pos.ne'⟩
  rw [nonzero_scalar_from_bytes,
    if_pos ⟨ZMod.val_ne_zero a |>.mpr ha, ZMod.val_lt a⟩, natCast_val_self]

theorem normalize_s_val (C : Curve) (a : ℕ) (s : ZMod C.n) :
    normalize_s C ⟨a, s.val⟩ =
      .ok (⟨a, (if is_high C s then -s else s).val⟩, is_high C s) := by
  haveI : NeZero C.n := ⟨C.n_prime.pos.ne'⟩
  rw [normalize_s]
  simp only [natCast_val_self, if_pos (ZMod.val_lt s)]
  cases hh : is_high C s <;> simp [hh]

theorem s_low_ne_zero (C : Curve) (d k z : ZMod C.n)
    (hs : s_candidate C d k z ≠ 0) : s_low C d k z ≠ 0 := by
  rw [s_low]
  split
  · exact neg_ne_zero.mpr hs
  · exact hs

theorem s_low_not_high (C : Curve) (d k z : ZMod C.n)
    (hs : s_candidate C d k z ≠ 0) : is_high C (s_low C d k z) = false := by
  haveI : NeZero C.n := ⟨C.n_prime.pos.ne'⟩
  have hodd : C.n % 2 = 1 := Nat.odd_iff.mp (C.n_prime.odd_of_ne_two C.n_ne_two)
  rw [s_low]
  cases hh : is_high C (s_candidate C d k z) with
  | false => simpa using hh
  | true =>
    have hv : (-(s_candidate C d k z)).val = C.n - (s_candidate C d k z).val := by
      rw [ZMod.neg_val, if_neg hs]
    have hlt := ZMod.val_lt (s_candidate C d k z)
    have hhigh : C.n / 2 < (s_candidate C d k z).val := by
      simpa [is_high] using hh
    simp only [if_true, is_high, hv, decide_eq_false_iff_not, not_lt]
    omega

theorem recoverable_new_ok (C : Curve) (sig : Signature) (i : RecoveryId)
    (rsig : RecoverableSignature) (h : recoverable_new C sig i = .ok rsig) :
    rsig = ⟨sig.r, sig.s, i.val⟩ ∧
      sig.r ≠ 0 ∧ sig.r < C.n ∧ sig.s ≠ 0 ∧ sig.s < C.n := by
  rw [recoverable_new, check_scalars] at h
  by_cases hc : sig.r ≠ 0 ∧ sig.r < C.n ∧ sig.s ≠ 0 ∧ sig.s < C.n
  · rw [if_pos hc] at h
    cases h
    exact ⟨rfl, hc⟩
  · rw [if_neg hc] at h
    cases h

theorem recovery_id_new_ok (b : ℕ) (i : RecoveryId)
    (h : recovery_id_new b = .ok i) : i = ⟨b⟩ ∧ (b = 0 ∨ b = 1) := by
  rw [recovery_id_new] at h
  by_cases hb : b = 0 ∨ b = 1
  · rw [if_pos hb] at h
    cases h
    exact ⟨rfl, hb⟩
  · rw [if_neg hb] at h
    cases h

theorem signature_try_from_ok (C : Curve) (bytes : List ℕ) (sig : Signature)
    (h : signature_try_from C bytes = .ok sig) :
    sig.r ≠ 0 ∧ sig.r < C.n ∧ sig.s ≠ 0 ∧ sig.s < C.n := by
  rw [signature_try_from] at h
  by_cases hl : bytes.length = 64
  · rw [if_pos hl] at h
    by_cases hc : beToNat (bytes.take 32) ≠ 0 ∧ beToNat (bytes.take 32) < C.n ∧
        beToNat ((bytes.drop 32).take 32) ≠ 0 ∧ beToNat ((bytes.drop 32).take 32) < C.n
    · simp only [if_pos hc] at h
      cases h
      exact hc
    · simp only [if_neg hc] at h
      cases h
  · rw [if_neg hl] at h
    cases h

theorem rec_sig_try_from_ok (C : Curve) (bytes : List ℕ)
    (rsig : RecoverableSignature) (h : rec_sig_try_from C bytes = .ok rsig) :
    (rsig.v = 0 ∨ rsig.v = 1) ∧
      rsig.r ≠ 0 ∧ rsig.r < C.n ∧ rsig.s ≠ 0 ∧ rsig.s < C.n := by
  rw [rec_sig_try_from] at h
  by_cases hl : bytes.length = 65
  · rw [if_pos hl] at h
    cases hs : signature_try_from C (bytes.take 64) with
    | error e => rw [hs] at h; cases h
    | ok sig =>
      rw [hs] at h
      cases hi : recovery_id_new (bytes.getD 64 0) with
      | error e => rw [hi] at h; cases h
      | ok i =>
        rw [hi] at h
        obtain ⟨hie, hb⟩ := recovery_id_new_ok _ _ hi
        obtain ⟨hre, hinv⟩ := recoverable_new_ok C sig i rsig h
        obtain ⟨h1, h2, h3, h4⟩ := signature_try_from_ok C _ _ hs
        subst hie
        subst hre
        exact ⟨hb, h1, h2, h3, h4⟩
  · rw [if_neg hl] at h
    cases h

theorem rid_total (rsig : RecoverableSignature) (h : rsig.v = 0 ∨ rsig.v = 1) :
    recovery_id_accessor rsig = .value ⟨rsig.v⟩ := by
  rw [recovery_id_accessor, recovery_id_new, if_pos h]

theorem scalars_total (C : Curve) (rsig : RecoverableSignature)
    (h : rsig.r ≠ 0 ∧ rsig.r < C.n ∧ rsig.s ≠ 0 ∧ rsig.s < C.n) :
    r_accessor C rsig = .value (rsig.r : ZMod C.n) ∧
      s_accessor C rsig = .value (rsig.s : ZMod C.n) ∧
      rec_sig_to_plain C rsig = .value ⟨rsig.r, rsig.s⟩ := by
  obtain ⟨h1, h2, h3, h4⟩ := h
  refine ⟨?_, ?_, ?_⟩
  · rw [r_accessor, nonzero_scalar_from_bytes, if_pos ⟨h1, h2⟩]
  · rw [s_accessor, nonzero_scalar_from_bytes, if_pos ⟨h3, h4⟩]
  · rw [rec_sig_to_plain, if_pos ⟨h1, h2, h3, h4⟩]

theorem sign_ok_inv (C : Curve) (d k z : ZMod C.n)
    (rsig : RecoverableSignature)
    (h : try_sign_recoverable_prehashed C d k z = .value (.ok rsig)) :
    k ≠ 0 ∧ r_candidate C k ≠ 0 ∧ s_candidate C d k z ≠ 0 ∧
      rsig = ⟨(r_candidate C k).val, (s_low C d k z).val,
              cond (rid_bit C d k z) 1 0⟩ := by
  haveI : NeZero C.n := ⟨C.n_prime.pos.ne'⟩
  by_cases hk : k = 0
  · subst hk
    simp [try_sign_recoverable_prehashed, scalar_invert] at h
  · have hkg : k * pointG C ≠ 0 := by simpa [pointG] using hk
    rw [try_sign_recoverable_prehashed, scalar_invert, if_neg hk] at h
    simp only [if_neg hk, to_affine, if_neg hkg] at h
    rw [show from_bytes_reduced C (C.xCoord (k * pointG C)) = r_candidate C k
      from rfl] at h
    by_cases hs : finv C k * (z + r_candidate C k * d) = 0
    · rw [if_pos hs] at h
      cases h
    · rw [if_neg hs] at h
      have hsc : s_candidate C d k z ≠ 0 := hs
      rw [show from_scalars C (r_candidate C k)
            (finv C k * (z + r_candidate C k * d)) =
          ⟨(r_candidate C k).val, (s_candidate C d k z).val⟩ from rfl] at h
      rw [normalize_s_val C ((r_candidate C k).val) (s_candidate C d k z)] at h
      have h2 : recoverable_new C
          ⟨(r_candidate C k).val,
            (if is_high C (s_candidate C d k z) then -(s_candidate C d k z)
              else s_candidate C d k z).val⟩
          ⟨cond (Bool.xor (C.yIsOdd (k * pointG C))
            (is_high C (s_candidate C d k z))) 1 0⟩ = .ok rsig := by
        injection h
      obtain ⟨hre, hr1, _, _, _⟩ := recoverable_new_ok C _ _ _ h2
      refine ⟨hk, (ZMod.val_ne_zero _).mp hr1, hsc, hre⟩

theorem sign_equation (C : Curve) (d k z : ZMod C.n) (hk : k ≠ 0) :
    z + r_candidate C k * d = k * s_candidate C d k z := by
  haveI : Fact C.n.Prime := ⟨C.n_prime⟩
  rw [s_candidate, finv_eq C k hk, ← mul_assoc, mul_inv_cancel₀ hk, one_mul]

theorem verify_candidate (C : Curve) (d k z : ZMod C.n) (hk : k ≠ 0)
    (hs : s_candidate C d k z ≠ 0) :
    z * (s_low C d k z)⁻¹ * pointG C +
      r_candidate C k * (s_low C d k z)⁻¹ * (d * pointG C) =
      if is_high C (s_candidate C d k z) then -k else k := by
  haveI : Fact C.n.Prime := ⟨C.n_prime⟩
  have e1 : ∀ w : ZMod C.n,
      z * w * pointG C + r_candidate C k * w * (d * pointG C) =
        (z + r_candidate C k * d) * w := by
    intro w
    rw [pointG]
    ring
  rw [s_low]
  by_cases hb : is_high C (s_candidate C d k z)
  · rw [if_pos hb, if_pos hb, e1, sign_equation C d k z hk, ← neg_inv,
      mul_neg, mul_assoc, mul_inv_cancel₀ hs, mul_one]
  · rw [if_neg hb, if_neg hb, e1, sign_equation C d k z hk, mul_assoc,
      mul_inv_cancel₀ hs, mul_one]

theorem recover_candidate (C : Curve) (d k z : ZMod C.n) (hk : k ≠ 0)
    (hr : r_candidate C k ≠ 0) :
    -((r_candidate C k)⁻¹ * z) * pointG C +
      (r_candidate C k)⁻¹ * s_low C d k z *
        (if is_high C (s_candidate C d k z) then -(k * pointG C)
          else k * pointG C) = d := by
  haveI : Fact C.n.Prime := ⟨C.n_prime⟩
  have e1 : -((r_candidate C k)⁻¹ * z) * 1 +
      (r_candidate C k)⁻¹ * (s_candidate C d k z * k) = d := by
    rw [mul_comm (s_candidate C d k z) k, ← sign_equation C d k z hk, mul_one,
      mul_add, neg_add_cancel_left, ← mul_assoc, inv_mul_cancel₀ hr, one_mul]
  rw [s_low, pointG]
  by_cases hb : is_high C (s_candidate C d k z)
  · rw [if_pos hb, if_pos hb]
    linear_combination e1
  · rw [if_neg hb, if_neg hb]
    linear_combination e1

/-- C1, amended: for every nonzero private scalar and every digest, if
`sign_recoverable` produces a recoverable signature and the ephemeral
point's x-coordinate is below the curve order (no r-overflow, the
unsupported recovery-id-2/3 configuration), then
`recover_verify_key_from_digest` on the same digest returns exactly the
public point d·G. -/
theorem c1_theorem (C : Curve) (d z : ZMod C.n) (rsig : RecoverableSignature)
    (hd : d ≠ 0)
    (hov : C.xCoord (C.nonce d z * pointG C) < C.n)
    (h : sign_recoverable C d z = .value (.ok rsig)) :
    recover_verify_key_from_digest C rsig z = .value (.ok (d * pointG C)) := by
  haveI : Fact C.n.Prime := ⟨C.n_prime⟩
  haveI : NeZero C.n := ⟨C.n_prime.pos.ne'⟩
  rw [sign_recoverable] at h
  set k := C.nonce d z with hkdef
  obtain ⟨hk, hr, hs, hre⟩ := sign_ok_inv C d k z rsig h
  subst hre
  have hK : k * pointG C ≠ 0 := by simpa [pointG] using hk
  have hsl := s_low_ne_zero C d k z hs
  have e1 := nzsf_of_ne C (r_candidate C k) hr
  have e2 := nzsf_of_ne C (s_low C d k z) hsl
  have e3 : recovery_id_new (cond (rid_bit C d k z) 1 0) =
      .ok ⟨cond (rid_bit C d k z) 1 0⟩ := by
    cases rid_bit C d k z <;> rfl
  have e4 : rid_is_y_odd ⟨cond (rid_bit C d k z) 1 0⟩ = rid_bit C d k z := by
    cases rid_bit C d k z <;> rfl
  have e5 : C.decompress (r_candidate C k).val (rid_bit C d k z) =
      some (if is_high C (s_candidate C d k z) then -(k * pointG C)
        else k * pointG C) := by
    have hval : (r_candidate C k).val = C.xCoord (k * pointG C) := by
      rw [r_candidate, from_bytes_reduced, ZMod.val_cast_of_lt hov]
    rw [hval, rid_bit]
    cases hb : is_high C (s_candidate C d k z) with
    | false =>
      rw [Bool.xor_false, if_neg (by simp)]
      exact C.decompress_complete _ hK
    | true =>
      rw [Bool.xor_true, if_pos rfl, ← C.xCoord_neg (k * pointG C),
        ← C.yIsOdd_neg (k * pointG C) hK]
      exact C.decompress_complete _ (neg_ne_zero.mpr hK)
  have e6 : scalar_invert C (r_candidate C k) = some (r_candidate C k)⁻¹ := by
    rw [scalar_invert, if_neg hr, finv_eq C _ hr]
  have e7 := recover_candidate C d k z hk hr
  simp only [recover_verify_key_from_digest, r_accessor, s_accessor,
    recovery_id_accessor, e1, e2, e3, e4, e5, e6, e7]
  rw [to_affine, if_neg hd, pointG, mul_one]

/-- C1, counterexample to the unconditional claim: on a provider instance
satisfying every contract, with a point whose x-coordinate is not below
the group order (a configuration that also exists on secp256k1, whose
base field is larger than its group order), signing succeeds but recovery
on the same digest fails instead of returning the public point. -/
theorem c1_counterexample :
    sign_recoverable Wcurve 1 0 = .value (.ok ⟨2, 2, 0⟩) ∧
      recover_verify_key_from_digest Wcurve ⟨2, 2, 0⟩ 0 =
        .value (.error .new) ∧
      recover_verify_key_from_digest Wcurve ⟨2, 2, 0⟩ 0 ≠
        .value (.ok ((1 : ZMod Wcurve.n) * pointG Wcurve)) := by
  refine ⟨by decide, by decide, by decide⟩

/-- C1, witness: at a concrete nonzero private scalar and digest without
r-overflow, signing then recovering returns the public point. -/
theorem c1_witness :
    (1 : ZMod Wcurve.n) ≠ 0 ∧
      Wcurve.xCoord (Wcurve.nonce 1 1 * pointG Wcurve) < Wcurve.n ∧
      sign_recoverable Wcurve 1 1 = .value (.ok ⟨3, 2, 0⟩) ∧
      recover_verify_key_from_digest Wcurve ⟨3, 2, 0⟩ 1 =
        .value (.ok ((1 : ZMod Wcurve.n) * pointG Wcurve)) :=
  ⟨by decide, by decide, by decide,
    c1_theorem Wcurve 1 1 ⟨3, 2, 0⟩ (by decide) (by decide) (by decide)⟩

/-- C2: for every valid (nonzero) private scalar and every digest, if the
plain `sign` path produces a signature, then `verify_prehashed` under the
corresponding public point d·G accepts it. -/
theorem c2_theorem (C : Curve) (d z : ZMod C.n) (sig : Signature)
    (hd : d ≠ 0)
    (h : sign_prehashed C d z = .value (.ok sig)) :
    verify_prehashed C (d * pointG C) z sig = .value (.ok ()) := by
  haveI : Fact C.n.Prime := ⟨C.n_prime⟩
  haveI : NeZero C.n := ⟨C.n_prime.pos.ne'⟩
  set k := C.nonce d z with hkdef
  cases hsr : sign_recoverable C d z with
  | panicked => rw [sign_prehashed, hsr] at h; cases h
  | value res =>
    cases res with
    | error e => rw [sign_prehashed, hsr] at h; cases h
    | ok rsig =>
      rw [sign_prehashed, hsr] at h
      rw [sign_recoverable, ← hkdef] at hsr
      obtain ⟨hk, hr, hs, hre⟩ := sign_ok_inv C d k z rsig hsr
      subst hre
      have hsl := s_low_ne_zero C d k z hs
      obtain ⟨_, _, hplain⟩ := scalars_total C
        ⟨(r_candidate C k).val, (s_low C d k z).val,
          cond (rid_bit C d k z) 1 0⟩
        ⟨(ZMod.val_ne_zero _).mpr hr, ZMod.val_lt _,
          (ZMod.val_ne_zero _).mpr hsl, ZMod.val_lt _⟩
      simp only [hplain] at h
      have hsig : (⟨(r_candidate C k).val, (s_low C d k z).val⟩ : Signature) =
          sig := by
        injection h with h2
        injection h2 with h3
      subst hsig
      have e1 := nzsf_of_ne C (r_candidate C k) hr
      have e2 := nzsf_of_ne C (s_low C d k z) hsl
      have e3 := s_low_not_high C d k z hs
      have e4 : scalar_invert C (s_low C d k z) = some (s_low C d k z)⁻¹ := by
        rw [scalar_invert, if_neg hsl, finv_eq C _ hsl]
      have e5 := verify_candidate C d k z hk hs
      have e6 : (if is_high C (s_candidate C d k z) then -k else k) ≠ 0 := by
        split
        · exact neg_ne_zero.mpr hk
        · exact hk
      have e7 : from_bytes_reduced C
          (C.xCoord (if is_high C (s_candidate C d k z) then -k else k)) =
          r_candidate C k := by
        rw [r_candidate, pointG, mul_one]
        split
        · rw [from_bytes_reduced, from_bytes_reduced, C.xCoord_neg]
        · rfl
      simp only [verify_prehashed, e1, e2, e3, e4, e5, Bool.false_eq_true,
        if_false, to_affine, if_neg e6, e7, if_pos rfl]
      rfl

/-- C2, witness: a concrete nonzero private scalar and digest where
signing succeeds and verification under the corresponding public point
accepts. -/
theorem c2_witness :
    (1 : ZMod Wcurve.n) ≠ 0 ∧
      sign_prehashed Wcurve 1 1 = .value (.ok ⟨3, 2⟩) ∧
      verify_prehashed Wcurve ((1 : ZMod Wcurve.n) * pointG Wcurve) 1 ⟨3, 2⟩ =
        .value (.ok ()) :=
  ⟨by decide, by decide, c2_theorem Wcurve 1 1 ⟨3, 2⟩ (by decide) (by decide)⟩

/-- C3: whenever `try_sign_recoverable_prehashed` produces a recoverable
signature, the packaged recovery id byte equals
`is_r_odd XOR is_s_high`, where `is_r_odd` is the parity of the
y-coordinate of the canonical affine ephemeral point R = k·G and
`is_s_high` is the flag reported by low-S normalization of the freshly
assembled (r, s) signature (true exactly when normalization changed
`s`). -/
theorem c3_theorem (C : Curve) (d k z : ZMod C.n)
    (rsig : RecoverableSignature) (sig2 : Signature) (flag : Bool)
    (h : try_sign_recoverable_prehashed C d k z = .value (.ok rsig))
    (h2 : normalize_s C
        (from_scalars C (r_candidate C k) (s_candidate C d k z)) =
      .ok (sig2, flag)) :
    rsig.v = cond (Bool.xor (C.yIsOdd (k * pointG C)) flag) 1 0 := by
  obtain ⟨hk, hr, hs, hre⟩ := sign_ok_inv C d k z rsig h
  have hflag : flag = is_high C (s_candidate C d k z) := by
    rw [show from_scalars C (r_candidate C k) (s_candidate C d k z) =
        ⟨(r_candidate C k).val, (s_candidate C d k z).val⟩ from rfl,
      normalize_s_val] at h2
    injection h2 with h3
    exact (congrArg Prod.snd h3).symm
  subst hre
  rw [hflag]
  rfl

/-- C3, witness: a concrete signing run in which normalization did change
`s` (flag true) and the packaged id byte is the xor value 1. -/
theorem c3_witness :
    (⟨3, 2, 1⟩ : RecoverableSignature).v =
      cond (Bool.xor (Wcurve.yIsOdd ((2 : ZMod Wcurve.n) * pointG Wcurve))
        true) 1 0 :=
  c3_theorem Wcurve 2 2 0 ⟨3, 2, 1⟩ ⟨3, 2⟩ true (by decide) (by decide)

/-- C4: evaluation of the code at the failing input.  With public point
G (secret scalar 1), signature r = 1, s = 1 (nonzero, low-S) and digest
scalar z = n - 1, the candidate point u1·G + u2·P is the point at
infinity and `verify_prehashed` aborts on its affine-conversion
`.unwrap()` instead of returning the `InvalidSignature` error the claim
and the spec prescribe. -/
theorem c4_theorem : verify_prehashed Wcurve 1 4 ⟨1, 1⟩ = .panicked := by
  decide

theorem trial_step_some (C : Curve) (pk z : ZMod C.n) (sig : Signature)
    (i : ℕ) (r : RecoverableSignature)
    (h : trial_step C pk z sig i = .value (some r)) : r.v = i := by
  cases hn : recoverable_new C sig ⟨i⟩ with
  | error e => simp [trial_step, hn] at h
  | ok rsig =>
    obtain ⟨hre, _⟩ := recoverable_new_ok C sig ⟨i⟩ rsig hn
    cases hrec : recover_verify_key_from_digest C rsig z with
    | panicked => simp [trial_step, hn, hrec] at h
    | value res =>
      cases res with
      | error e => simp [trial_step, hn, hrec] at h
      | ok pk2 =>
        by_cases hpk : pk = pk2
        · simp only [trial_step, hn, hrec, hpk, if_pos rfl] at h
          injection h with h4
          injection h4 with h5
          rw [← h5, hre]
        · simp [trial_step, hn, hrec, hpk] at h

/-- C5: `from_trial_recovery` normalizes `s` first, then tries recovery
id 0 and only afterwards id 1, each attempt recovering a key and
comparing it with the expected one; it returns the first matching
recoverable signature (whose embedded id byte is the matching id), and
fails when neither id matches. -/
theorem c5_theorem (C : Curve) (pk z : ZMod C.n) (sig sig2 : Signature)
    (f : Bool) (hn : normalize_s C sig = .ok (sig2, f)) :
    (∀ r0, trial_step C pk z sig2 0 = .value (some r0) →
        from_trial_recovery C pk z sig = .value (.ok r0) ∧ r0.v = 0) ∧
    (∀ r1, trial_step C pk z sig2 0 = .value none →
        trial_step C pk z sig2 1 = .value (some r1) →
        from_trial_recovery C pk z sig = .value (.ok r1) ∧ r1.v = 1) ∧
    (trial_step C pk z sig2 0 = .value none →
        trial_step C pk z sig2 1 = .value none →
        from_trial_recovery C pk z sig = .value (.error .new)) := by
  refine ⟨?_, ?_, ?_⟩
  · intro r0 h0
    refine ⟨?_, trial_step_some C pk z sig2 0 r0 h0⟩
    simp only [from_trial_recovery, hn, h0]
  · intro r1 h0 h1
    refine ⟨?_, trial_step_some C pk z sig2 1 r1 h1⟩
    simp only [from_trial_recovery, hn, h0, h1]
  · intro h0 h1
    simp only [from_trial_recovery, hn, h0, h1]

/-- C5, witness: a signature produced for recovery id 1, trialed against
the correct public key: id 0 does not match, id 1 does, and the returned
recoverable signature embeds id byte 1. -/
theorem c5_witness :
    from_trial_recovery Wcurve 2 0 ⟨3, 2⟩ = .value (.ok ⟨3, 2, 1⟩) ∧
      (⟨3, 2, 1⟩ : RecoverableSignature).v = 1 :=
  (c5_theorem Wcurve 2 0 ⟨3, 2⟩ ⟨3, 2⟩ false (by decide)).2.1 ⟨3, 2, 1⟩
    (by decide) (by decide)

/-- C6: parsing a recoverable signature fails for every byte length other
than 65; any 65-byte buffer whose tag byte is outside {0, 1} fails;
`Id::new` rejects every byte outside {0, 1} and accepts 0 and 1. -/
theorem c6_theorem (C : Curve) :
    (∀ bytes : List ℕ, bytes.length ≠ 65 →
        rec_sig_try_from C bytes = .error .new) ∧
    (∀ bytes : List ℕ, bytes.length = 65 → bytes.getD 64 0 ≠ 0 →
        bytes.getD 64 0 ≠ 1 → rec_sig_try_from C bytes = .error .new) ∧
    (∀ b : ℕ, b ≠ 0 → b ≠ 1 → recovery_id_new b = .error .new) ∧
    recovery_id_new 0 = .ok ⟨0⟩ ∧ recovery_id_new 1 = .ok ⟨1⟩ := by
  refine ⟨?_, ?_, ?_, rfl, rfl⟩
  · intro bytes hl
    rw [rec_sig_try_from, if_neg hl]
  · intro bytes hl h0 h1
    have hid : recovery_id_new (bytes.getD 64 0) = .error .new := by
      rw [recovery_id_new, if_neg (fun hor => hor.elim h0 h1)]
    rw [rec_sig_try_from, if_pos hl]
    cases hs : signature_try_from C (bytes.take 64) with
    | error e => cases e; rfl
    | ok sig => simp only [hid]
  · intro b h0 h1
    rw [recovery_id_new, if_neg (fun hor => hor.elim h0 h1)]

/-- C6, witness: a 63-byte buffer is rejected; a 65-byte buffer with
valid r and s but tag byte 2 is rejected; `Id::new` rejects 2 and accepts
0. -/
theorem c6_witness :
    rec_sig_try_from Wcurve (List.replicate 63 0) = .error .new ∧
      rec_sig_try_from Wcurve
        (List.replicate 31 0 ++ 1 :: (List.replicate 31 0 ++ [1, 2])) =
        .error .new ∧
      recovery_id_new 2 = .error .new ∧ recovery_id_new 0 = .ok ⟨0⟩ :=
  ⟨(c6_theorem Wcurve).1 _ (by decide),
    (c6_theorem Wcurve).2.1 _ (by decide) (by decide) (by decide),
    (c6_theorem Wcurve).2.2.1 2 (by decide) (by decide),
    (c6_theorem Wcurve).2.2.2.1⟩

/-- C7: whenever the ephemeral point k·G is the point at infinity the
signer returns the error value (the zero-nonce check fires before the
affine-conversion unwrap), and for a nonzero ephemeral scalar the signing
computation never aborts. -/
theorem c7_theorem (C : Curve) (d k z : ZMod C.n) :
    (k * pointG C = 0 →
        try_sign_recoverable_prehashed C d k z = .value (.error .new)) ∧
    (k ≠ 0 → try_sign_recoverable_prehashed C d k z ≠ .panicked) := by
  constructor
  · intro h0
    have hk : k = 0 := by rwa [pointG, mul_one] at h0
    subst hk
    simp [try_sign_recoverable_prehashed, scalar_invert]
  · intro hk
    have hkg : k * pointG C ≠ 0 := by simpa [pointG] using hk
    simp only [try_sign_recoverable_prehashed, scalar_invert, if_neg hk,
      to_affine, if_neg hkg]
    by_cases hs : finv C k *
        (z + from_bytes_reduced C (C.xCoord (k * pointG C)) * d) = 0
    · simp [hs]
    · cases hns : normalize_s C (from_scalars C
          (from_bytes_reduced C (C.xCoord (k * pointG C)))
          (finv C k *
            (z + from_bytes_reduced C (C.xCoord (k * pointG C)) * d))) with
      | error e => simp [hs, hns]
      | ok p => simp [hs, hns]

/-- C7, witness: a zero ephemeral scalar yields the error value, a
nonzero one never aborts. -/
theorem c7_witness :
    try_sign_recoverable_prehashed Wcurve 1 0 1 = .value (.error .new) ∧
      try_sign_recoverable_prehashed Wcurve 1 1 1 ≠ .panicked :=
  ⟨(c7_theorem Wcurve 1 0 1).1 (by decide),
    (c7_theorem Wcurve 1 1 1).2 (by decide)⟩

/-- C8, amended: every failure is surfaced to the caller as an error
value and sub-step errors propagate unchanged (none swallowed or
retried), but the error type has a single value, so the failure kinds are
not distinguishable from each other by the caller. -/
theorem c8_theorem :
    (∀ e1 e2 : Error, e1 = e2) ∧
    (∀ (C : Curve) (bytes : List ℕ) (e : Error), bytes.length = 65 →
        signature_try_from C (bytes.take 64) = .error e →
        rec_sig_try_from C bytes = .error e) ∧
    (∀ (C : Curve) (pk z : ZMod C.n) (sig : Signature) (e : Error),
        normalize_s C sig = .error e →
        from_trial_recovery C pk z sig = .value (.error e)) := by
  refine ⟨fun e1 e2 => by cases e1; cases e2; rfl, ?_, ?_⟩
  · intro C bytes e hl hs
    rw [rec_sig_try_from, if_pos hl, hs]
  · intro C pk z sig e hn
    simp only [from_trial_recovery, hn]

/-- C8, counterexample to distinguishability: two different failure
modes — a recovery-id byte outside {0, 1} and a wrong-length buffer —
return the identical error value. -/
theorem c8_counterexample :
    recovery_id_new 2 = .error Error.new ∧
      rec_sig_try_from Wcurve (List.replicate 63 0) = .error Error.new :=
  ⟨by decide, by decide⟩

/-- C8, witness: concrete error propagation through parsing and trial
recovery. -/
theorem c8_witness :
    rec_sig_try_from Wcurve (List.replicate 65 0) = .error Error.new ∧
      from_trial_recovery Wcurve 1 1 ⟨1, 7⟩ = .value (.error Error.new) :=
  ⟨c8_theorem.2.1 Wcurve (List.replicate 65 0) Error.new (by decide)
      (by decide),
    c8_theorem.2.2 Wcurve 1 1 ⟨1, 7⟩ Error.new (by decide)⟩

/-- C9: every recoverable signature obtained from byte parsing, from
`new` with a validated id, or from signing has byte 64 in {0, 1}, and the
`recovery_id` accessor returns it without aborting. -/
theorem c9_theorem :
    (∀ (C : Curve) (bytes : List ℕ) (rsig : RecoverableSignature),
        rec_sig_try_from C bytes = .ok rsig →
        (rsig.v = 0 ∨ rsig.v = 1) ∧
          recovery_id_accessor rsig = .value ⟨rsig.v⟩) ∧
    (∀ (C : Curve) (sig : Signature) (b : ℕ) (i : RecoveryId)
        (rsig : RecoverableSignature),
        recovery_id_new b = .ok i → recoverable_new C sig i = .ok rsig →
        (rsig.v = 0 ∨ rsig.v = 1) ∧
          recovery_id_accessor rsig = .value ⟨rsig.v⟩) ∧
    (∀ (C : Curve) (d k z : ZMod C.n) (rsig : RecoverableSignature),
        try_sign_recoverable_prehashed C d k z = .value (.ok rsig) →
        (rsig.v = 0 ∨ rsig.v = 1) ∧
          recovery_id_accessor rsig = .value ⟨rsig.v⟩) := by
  refine ⟨?_, ?_, ?_⟩
  · intro C bytes rsig h
    have hv := (rec_sig_try_from_ok C bytes rsig h).1
    exact ⟨hv, rid_total rsig hv⟩
  · intro C sig b i rsig hb hnew
    obtain ⟨hie, hbv⟩ := recovery_id_new_ok b i hb
    obtain ⟨hre, _⟩ := recoverable_new_ok C sig i rsig hnew
    have hv : rsig.v = 0 ∨ rsig.v = 1 := by
      rw [hre]
      subst hie
      exact hbv
    exact ⟨hv, rid_total rsig hv⟩
  · intro C d k z rsig h
    obtain ⟨_, _, _, hre⟩ := sign_ok_inv C d k z rsig h
    have hv : rsig.v = 0 ∨ rsig.v = 1 := by
      rw [hre]
      cases rid_bit C d k z with
      | false => exact Or.inl rfl
      | true => exact Or.inr rfl
    exact ⟨hv, rid_total rsig hv⟩

/-- C9, witness: a parsed 65-byte signature with tag 1 has a valid byte
64 and a non-aborting `recovery_id` accessor. -/
theorem c9_witness :
    ((⟨1, 1, 1⟩ : RecoverableSignature).v = 0 ∨
        (⟨1, 1, 1⟩ : RecoverableSignature).v = 1) ∧
      recovery_id_accessor ⟨1, 1, 1⟩ = .value ⟨1⟩ :=
  c9_theorem.1 Wcurve
    (List.replicate 31 0 ++ 1 :: (List.replicate 31 0 ++ [1, 1]))
    ⟨1, 1, 1⟩ (by decide)

theorem scalars_total_ne (C : Curve) (rsig : RecoverableSignature)
    (h : rsig.r ≠ 0 ∧ rsig.r < C.n ∧ rsig.s ≠ 0 ∧ rsig.s < C.n) :
    (rsig.r ≠ 0 ∧ rsig.r < C.n ∧ rsig.s ≠ 0 ∧ rsig.s < C.n) ∧
      r_accessor C rsig ≠ .panicked ∧ s_accessor C rsig ≠ .panicked ∧
      rec_sig_to_plain C rsig = .value ⟨rsig.r, rsig.s⟩ := by
  obtain ⟨e1, e2, e3⟩ := scalars_total C rsig h
  exact ⟨h, by simp [e1], by simp [e2], e3⟩

/-- C10: every recoverable signature obtained from byte parsing, from
`new`, or from signing has both scalar halves canonical and nonzero; the
`r` and `s` accessors never abort, and the conversion to a plain 64-byte
signature never fails. -/
theorem c10_theorem :
    (∀ (C : Curve) (bytes : List ℕ) (rsig : RecoverableSignature),
        rec_sig_try_from C bytes = .ok rsig →
        (rsig.r ≠ 0 ∧ rsig.r < C.n ∧ rsig.s ≠ 0 ∧ rsig.s < C.n) ∧
          r_accessor C rsig ≠ .panicked ∧ s_accessor C rsig ≠ .panicked ∧
          rec_sig_to_plain C rsig = .value ⟨rsig.r, rsig.s⟩) ∧
    (∀ (C : Curve) (sig : Signature) (i : RecoveryId)
        (rsig : RecoverableSignature),
        recoverable_new C sig i = .ok rsig →
        (rsig.r ≠ 0 ∧ rsig.r < C.n ∧ rsig.s ≠ 0 ∧ rsig.s < C.n) ∧
          r_accessor C rsig ≠ .panicked ∧ s_accessor C rsig ≠ .panicked ∧
          rec_sig_to_plain C rsig = .value ⟨rsig.r, rsig.s⟩) ∧
    (∀ (C : Curve) (d k z : ZMod C.n) (rsig : RecoverableSignature),
        try_sign_recoverable_prehashed C d k z = .value (.ok rsig) →
        (rsig.r ≠ 0 ∧ rsig.r < C.n ∧ rsig.s ≠ 0 ∧ rsig.s < C.n) ∧
          r_accessor C rsig ≠ .panicked ∧ s_accessor C rsig ≠ .panicked ∧
          rec_sig_to_plain C rsig = .value ⟨rsig.r, rsig.s⟩) := by
  refine ⟨?_, ?_, ?_⟩
  · intro C bytes rsig h
    exact scalars_total_ne C rsig (rec_sig_try_from_ok C bytes rsig h).2
  · intro C sig i rsig h
    obtain ⟨hre, h1, h2, h3, h4⟩ := recoverable_new_ok C sig i rsig h
    subst hre
    exact scalars_total_ne C _ ⟨h1, h2, h3, h4⟩
  · intro C d k z rsig h
    haveI : NeZero C.n := ⟨C.n_prime.pos.ne'⟩
    obtain ⟨hk, hr, hs, hre⟩ := sign_ok_inv C d k z rsig h
    subst hre
    exact scalars_total_ne C _
      ⟨(ZMod.val_ne_zero _).mpr hr, ZMod.val_lt _,
        (ZMod.val_ne_zero _).mpr (s_low_ne_zero C d k z hs), ZMod.val_lt _⟩

/-- C10, witness: a parsed 65-byte signature has canonical nonzero
halves, non-aborting accessors and a non-failing plain conversion. -/
theorem c10_witness :
    (((⟨1, 1, 1⟩ : RecoverableSignature).r ≠ 0 ∧
        (⟨1, 1, 1⟩ : RecoverableSignature).r < Wcurve.n ∧
        (⟨1, 1, 1⟩ : RecoverableSignature).s ≠ 0 ∧
        (⟨1, 1, 1⟩ : RecoverableSignature).s < Wcurve.n) ∧
      r_accessor Wcurve ⟨1, 1, 1⟩ ≠ .panicked ∧
      s_accessor Wcurve ⟨1, 1, 1⟩ ≠ .panicked ∧
      rec_sig_to_plain Wcurve ⟨1, 1, 1⟩ = .value ⟨1, 1⟩) :=
  c10_theorem.1 Wcurve
    (List.replicate 31 0 ++ 1 :: (List.replicate 31 0 ++ [1, 1]))
    ⟨1, 1, 1⟩ (by decide)

end K256
